import Mathlib

/-
  Verification development for gemini-context-setup/create_context_file.py.

  The script walks a directory tree and concatenates the contents of the
  selected files into one output artifact.  The embedding below models each
  Python function of the script as a pure Lean function.  Filesystem facts
  that the script observes (stat results, MIME lookup results, the bytes of
  the probe chunk, read failures) are carried as fields of a FileMeta record;
  a fallible Python operation is modelled with Option (none meaning the
  operation raised).
-/

namespace ContextFile

/-- One item of a compiled regular expression, covering the constructs used
by the exclude and include patterns of the script: a literal character
(also produced by a backslash escape), the dot metacharacter, and the
end-of-string anchor.  Character classes are not modelled. -/
inductive RItem where
  | lit (c : Char)
  | anyChar
  | endAnchor
deriving DecidableEq

/-- A compiled regular expression. -/
abbrev Pattern := List RItem

/-- Does the regex match a prefix of the character list?  Models matching a
Python regex at one fixed starting position.  The dot metacharacter matches
any character except a newline; the end anchor requires the remaining input
to be empty (paths contain no newlines, so the before-trailing-newline case
of the anchor is irrelevant here). -/
def matchHere : List RItem → List Char → Bool
  | [], _ => true
  | RItem.lit c :: ps, d :: s => c == d && matchHere ps s
  | RItem.lit _ :: _, [] => false
  | RItem.anyChar :: ps, d :: s => d != '\n' && matchHere ps s
  | RItem.anyChar :: _, [] => false
  | RItem.endAnchor :: ps, s => s.isEmpty && matchHere ps s

/-- Models Python re.search: the regex matches starting at some offset of
the string (unanchored search). -/
def reSearch (p : List RItem) (s : List Char) : Bool :=
  (List.range (s.length + 1)).any (fun i => matchHere p (s.drop i))

/-- Compile a regex source string into the RItem list: a backslash escapes
the next character to a literal, the dot and dollar metacharacters map to
anyChar and endAnchor, every other character is a literal.  This covers
every pattern in the default exclude list of the script. -/
def parseRegex : List Char → List RItem
  | [] => []
  | '\\' :: c :: rest => RItem.lit c :: parseRegex rest
  | '\\' :: [] => []
  | '.' :: rest => RItem.anyChar :: parseRegex rest
  | '$' :: rest => RItem.endAnchor :: parseRegex rest
  | c :: rest => RItem.lit c :: parseRegex rest

/-- The regex contains no end-of-string anchor. -/
def noEndAnchor (p : List RItem) : Bool :=
  p.all fun i => match i with
    | RItem.endAnchor => false
    | _ => true

/-- Models Python startswith: the second string is a prefix of the
first. -/
def pyStartsWith (s pre : String) : Bool := pre.data.isPrefixOf s.data

/-- Models Python endswith: the second string is a suffix of the first. -/
def pyEndsWith (s post : String) : Bool := post.data.isSuffixOf s.data

/-- Models Python str.lower for the ASCII range. -/
def pyLower (s : String) : String := String.mk (s.data.map Char.toLower)

/-- Models Python str.strip: remove leading and trailing whitespace. -/
def pyStrip (s : String) : String :=
  String.mk (((s.data.dropWhile Char.isWhitespace).reverse.dropWhile
    Char.isWhitespace).reverse)

/-- Remove the last character (Python slicing with negative stop, used to
turn a directory pattern into its directory name). -/
def pyDropLast (s : String) : String := String.mk s.data.dropLast

/-- The substring after the last occurrence of the separator character
(the whole string when the separator does not occur): models taking the
last element of a Python single-character split. -/
def lastComponent (sep : Char) (s : String) : String :=
  String.mk ((s.data.reverse.takeWhile (fun c => !(c == sep))).reverse)

/-- Worker for pyReplace.  The counter, when positive, is the number of
characters still to copy over silently because they belonged to the
occurrence just replaced (the occurrence head was consumed by the step
that matched). -/
def pyReplaceAux (old new : List Char) : List Char → Nat → List Char
  | [], _ => []
  | c :: rest, 0 =>
    if old.isPrefixOf (c :: rest) then
      new ++ pyReplaceAux old new rest (old.length - 1)
    else
      c :: pyReplaceAux old new rest 0
  | _ :: rest, n + 1 => pyReplaceAux old new rest n

/-- Models Python str.replace old new for a nonempty old string: scan left
to right, replacing each non-overlapping occurrence of old by new.  (The
script only ever replaces a nonempty string.) -/
def pyReplace (old new s : List Char) : List Char := pyReplaceAux old new s 0

/-- There is an occurrence of old as a contiguous segment of s. -/
def hasOccur (old : List Char) : List Char → Bool
  | [] => old.isEmpty
  | c :: rest => old.isPrefixOf (c :: rest) || hasOccur old rest

/-- Models the relative-path computation of get_file_info:
str(file_path).replace(str(file_path.cwd()) plus a separator, empty).
Note it strips the current working directory, not the scanned root. -/
def relPathDisplay (cwd path : String) : String :=
  String.mk (pyReplace (cwd ++ "/").data [] path.data)

/-- Models fnmatch.fnmatch on a POSIX system for patterns built from the
star and question-mark wildcards and literal characters (character classes
are not modelled).  The whole string must match the whole pattern. -/
def globMatch : List Char → List Char → Bool
  | [], s => s.isEmpty
  | '*' :: ps, s =>
    globMatch ps s ||
      (match s with
       | [] => false
       | _ :: rest => globMatch ('*' :: ps) rest)
  | '?' :: ps, s =>
    (match s with
     | [] => false
     | _ :: rest => globMatch ps rest)
  | c :: ps, s =>
    (match s with
     | [] => false
     | d :: rest => c == d && globMatch ps rest)
termination_by p s => (s.length, p.length)

/-- Everything the script observes about one discovered regular file.
The path field is the full path string str(file_path) produced by the glob
over the resolved root (an absolute path); relToRoot is the result of
Path.relative_to (none models the ValueError fallback); stat is the
st_size result (none models stat raising); content is the result of the
lenient text read in the aggregation loop (none models the read raising);
the three probe flags describe the 1024-byte binary-detection probe. -/
structure FileMeta where
  path : String
  relToRoot : Option String
  suffix : String
  name : String
  mime : Option String
  openFails : Bool
  chunkHasNull : Bool
  chunkUtf8Ok : Bool
  stat : Option Nat
  mtime : String
  content : Option String

/-- The CLI-level configuration handed to create_context_file, plus the
current working directory of the process (observed by get_file_info). -/
structure Config where
  rootPath : String
  outputFile : String
  cwd : String
  excludePatterns : List Pattern
  includePatterns : Option (List Pattern)

/-- The run-local counters and the body text written so far. -/
structure RunState where
  processed : Nat
  ignored : Nat
  skipped : Nat
  totalSize : Nat
  out : String

def initState : RunState := ⟨0, 0, 0, 0, ""⟩

/-- Models the chunk probe of is_binary_file: any I/O error means binary,
a null byte in the first 1024 bytes means binary, a chunk that fails to
decode as UTF-8 means binary. -/
def probeChunk (f : FileMeta) : Bool :=
  if f.openFails then true
  else if f.chunkHasNull then true
  else !f.chunkUtf8Ok

/-- Models is_binary_file: trust a MIME type that declares non-text,
otherwise probe the first 1024 bytes.  Never raises. -/
def is_binary_file (f : FileMeta) : Bool :=
  match f.mime with
  | some m => if !(pyStartsWith m "text") then true else probeChunk f
  | none => probeChunk f

/-- Models one pattern test of is_ignored_by_patterns: a pattern with a
trailing separator is a directory pattern matched as a path segment, else
a glob match against the relative path, else exact string equality. -/
def matchIgnorePat (relStr pat : String) : Bool :=
  if pyEndsWith pat "/" then
    relStr == pyDropLast pat || pyStartsWith relStr (pyDropLast pat ++ "/")
  else if globMatch pat.data relStr.data then true
  else relStr == pat

/-- Models is_ignored_by_patterns: with no patterns nothing is ignored;
otherwise the path made relative to root (falling back to the full string
when relative_to raises) is tested against each pattern in order. -/
def is_ignored_by_patterns (f : FileMeta) (ignorePats : List String) : Bool :=
  if ignorePats.isEmpty then false
  else
    let relStr := match f.relToRoot with
      | some r => r
      | none => f.path
    ignorePats.any (fun p => matchIgnorePat relStr p)

/-- Models should_include_file.  The checks run in order: exclude regexes
(unanchored search over the full path string), ignore patterns, binary
detection, then the size cap.  The size check calls stat, which is not
inside any try block; a stat failure there raises out of the function,
modelled by none. -/
def should_include_file (f : FileMeta) (excludePats : List Pattern)
    (ignorePats : List String) : Option Bool :=
  if excludePats.any (fun p => reSearch p f.path.data) then some false
  else if is_ignored_by_patterns f ignorePats then some false
  else if is_binary_file f then some false
  else
    match f.stat with
    | none => none
    | some sz => if sz > 1000000 then some false else some true

/-- Models the file-type classification of get_file_info, as a function of
the MIME lookup result, the suffix, the lowercased-comparable name, and the
full path string. -/
def classify (mime : Option String) (suffix name path : String) : String :=
  match mime with
  | none =>
    if suffix ∈ [".py", ".js", ".ts", ".java", ".cpp", ".c", ".go", ".rs", ".php", ".rb"] then
      "code"
    else if suffix ∈ [".md", ".txt", ".rst", ".adoc"] then
      "documentation"
    else if pyLower name ∈ ["readme", "license", "contributing", "changelog", "authors"] then
      "documentation"
    else if hasOccur "adr".data (pyLower path).data && suffix == ".md" then
      "architecture_decision"
    else
      "unknown"
  | some m =>
    if pyStartsWith m "text" then
      if hasOccur "markdown".data m.data then "documentation"
      else if lastComponent '/' m ∈ ["x-python", "javascript", "x-java", "x-c"] then
        "code"
      else "text"
    else "binary"

/-- The 80-character separator line of the output format. -/
def sepLine : String := String.mk (List.replicate 80 '=')

/-- The per-file metadata block written before the file content, exactly
the writes of the aggregation loop between the two separator lines. -/
def fileInfoBlock (cfg : Config) (f : FileMeta) (sz : Nat) : String :=
  "\n\n" ++ sepLine ++ "\n" ++
  "FILE: " ++ relPathDisplay cfg.cwd f.path ++ "\n" ++
  "TYPE: " ++ classify f.mime f.suffix f.name f.path ++ "\n" ++
  "SIZE: " ++ toString sz ++ " bytes\n" ++
  "LAST MODIFIED: " ++ f.mtime ++ "\n" ++
  sepLine ++ "\n\n"

/-- The header written before any file is considered. -/
def headerString (cfg : Config) (now : String) : String :=
  "# Codebase Context File for Gemini 2.5 Pro\n\n" ++
  "Generated on: " ++ now ++ "\n" ++
  "Root directory: " ++ cfg.rootPath ++ "\n\n"

/-- The summary block written after the loop. -/
def summaryString (st : RunState) : String :=
  "\n\n" ++ sepLine ++ "\n" ++
  "SUMMARY\n" ++
  "Files processed: " ++ toString st.processed ++ "\n" ++
  "Files ignored by .context-ignore: " ++ toString st.ignored ++ "\n" ++
  "Files skipped for other reasons: " ++ toString st.skipped ++ "\n" ++
  "Total size: " ++ toString st.totalSize ++ " bytes\n" ++
  sepLine ++ "\n"

/-- One iteration of the aggregation loop of create_context_file.  none
models an uncaught exception aborting the run: the only way that happens is
a stat failure inside the size check of should_include_file, because the
try block of the loop covers everything after the inclusion decision.
Inside the try block, a stat failure in get_file_info is caught before any
write; a content-read failure is caught after the metadata block was
already written, leaving an orphan block in the output. -/
def processFile (cfg : Config) (ignorePats : List String) (st : RunState)
    (f : FileMeta) : Option RunState :=
  if f.path == cfg.outputFile then some { st with skipped := st.skipped + 1 }
  else
    match should_include_file f cfg.excludePatterns ignorePats with
    | none => none
    | some true =>
      match f.stat with
      | none => some { st with skipped := st.skipped + 1 }
      | some sz =>
        match f.content with
        | none =>
          some { st with out := st.out ++ fileInfoBlock cfg f sz,
                         skipped := st.skipped + 1 }
        | some c =>
          some { st with out := st.out ++ fileInfoBlock cfg f sz ++ c,
                         processed := st.processed + 1,
                         totalSize := st.totalSize + sz }
    | some false =>
      if is_ignored_by_patterns f ignorePats then
        some { st with ignored := st.ignored + 1 }
      else
        some { st with skipped := st.skipped + 1 }

/-- Run the aggregation loop over the sorted candidate list.  The boolean
records whether the loop ran to completion (true) or an uncaught exception
aborted it (false), in which case the state at the abort is returned. -/
def runFiles (cfg : Config) (ignorePats : List String) :
    List FileMeta → RunState → RunState × Bool
  | [], st => (st, true)
  | f :: fs, st =>
    match processFile cfg ignorePats st f with
    | none => (st, false)
    | some st2 => runFiles cfg ignorePats fs st2

/-- A file matches at least one include pattern (unanchored search over the
full path string). -/
def matchesAnyInclude (pats : List Pattern) (f : FileMeta) : Bool :=
  pats.any (fun p => reSearch p f.path.data)

/-- Models the include pre-filter: applied only when include patterns were
supplied and nonempty (Python truthiness of the optional list). -/
def candidates (cfg : Config) (files : List FileMeta) : List FileMeta :=
  match cfg.includePatterns with
  | none => files
  | some ips => if ips.isEmpty then files else files.filter (matchesAnyInclude ips)

/-- The order used by sorted with key str(x): compare full path strings. -/
def pathLe (a b : FileMeta) : Prop := a.path ≤ b.path

instance : DecidableRel pathLe :=
  fun a b => inferInstanceAs (Decidable (a.path ≤ b.path))

instance : IsTotal FileMeta pathLe := ⟨fun a b => le_total a.path b.path⟩

instance : IsTrans FileMeta pathLe := ⟨fun _ _ _ h1 h2 => le_trans h1 h2⟩

/-- Models sorted(all_files, key=str): sort the candidate list by the full
path string. -/
def sortByPath (l : List FileMeta) : List FileMeta := List.insertionSort pathLe l

/-- The counters and completion flag of one run of create_context_file,
given the discovered files in filesystem-enumeration order and the loaded
ignore patterns. -/
def runResult (cfg : Config) (ignorePats : List String)
    (files : List FileMeta) : RunState × Bool :=
  runFiles cfg ignorePats (sortByPath (candidates cfg files)) initState

/-- The bytes of the output file produced by one run (header, body, and the
summary when the run completed), together with the completion flag. -/
def programOutput (cfg : Config) (now : String) (ignorePats : List String)
    (files : List FileMeta) : String × Bool :=
  (headerString cfg now ++
     ((runResult cfg ignorePats files).1.out ++
       (if (runResult cfg ignorePats files).2 then
          summaryString (runResult cfg ignorePats files).1
        else "")),
   (runResult cfg ignorePats files).2)

/-- Models load_context_ignore over the sequence of line-read attempts of
the ignore file: each successful read yields the raw line, a failed read
raises, is caught, and the patterns accumulated so far are returned. -/
def processIgnoreLines (acc : List String) : List (Except Unit String) → List String
  | [] => acc
  | Except.error _ :: _ => acc
  | Except.ok line :: rest =>
    if !(pyStrip line == "") && !(pyStartsWith (pyStrip line) "#") then
      processIgnoreLines (acc ++ [pyStrip line]) rest
    else processIgnoreLines acc rest

/-- Models load_context_ignore: none models an absent ignore file; an
open failure is the singleton read sequence that fails immediately. -/
def load_context_ignore (file : Option (List (Except Unit String))) : List String :=
  match file with
  | none => []
  | some lineReads => processIgnoreLines [] lineReads

/-- The default value of the repeatable exclude flag, exactly the raw
strings of the argparse default list. -/
def defaultExcludeStrings : List String :=
  ["\\.git", "__pycache__", "\\.pyc$", "\\.DS_Store$", "node_modules",
   "\\.venv", "venv", "\\.env", "\\.idea", "\\.vscode", "dist", "build",
   "coverage", "\\.coverage", "\\.pytest_cache", "\\.tox"]

/-- Models the argparse append action with a list default: the parsed value
is the default list with each supplied occurrence appended after it (the
append action extends a copy of the default; it never replaces it). -/
def parseArgsExclude (supplied : List String) : List String :=
  defaultExcludeStrings ++ supplied

/-- The default exclude patterns, compiled. -/
def defaultExcludeAsts : List Pattern :=
  defaultExcludeStrings.map (fun s => parseRegex s.data)

/-! ### Concrete fixtures used by witnesses and counterexamples -/

/-- A small UTF-8 text file under the root. -/
def fPlain : FileMeta :=
  ⟨"/r/a.txt", some "a.txt", ".txt", "a.txt", some "text/plain",
   false, false, true, some 5, "2025-01-01T00:00:00", some "hello"⟩

/-- A configuration with no exclude or include patterns and an output file
outside the scanned tree. -/
def cfg0 : Config := ⟨"/r", "out.txt", "/r", [], none⟩

/-- A file matching both the exclude regex of cfgB and a directory ignore
pattern. -/
def fBoth : FileMeta :=
  ⟨"/r/node_modules/a.js", some "node_modules/a.js", ".js", "a.js",
   some "text/javascript", false, false, true, some 5,
   "2025-01-01T00:00:00", some "x"⟩

/-- A configuration whose exclude list is the single regex node_modules. -/
def cfgB : Config :=
  ⟨"/r", "out.txt", "/r", [parseRegex "node_modules".data], none⟩

/-- A text file whose stat call raises (and whose content read would
raise); the run never gets as far as reading it. -/
def fStatFail : FileMeta :=
  ⟨"/r/a.txt", some "a.txt", ".txt", "a.txt", some "text/plain",
   false, false, true, none, "2025-01-01T00:00:00", none⟩

/-- A text file whose stat succeeds but whose content read raises. -/
def fReadFail : FileMeta :=
  ⟨"/r/a.txt", some "a.txt", ".txt", "a.txt", some "text/plain",
   false, false, true, some 5, "2025-01-01T00:00:00", none⟩

/-- The destination output file of a default invocation, as discovered by
the glob: full path under the resolved root, while the configured output
path is the default relative file name. -/
def selfFile : FileMeta :=
  ⟨"/proj/gemini_context.txt", some "gemini_context.txt", ".txt",
   "gemini_context.txt", some "text/plain", false, false, true, some 0,
   "2025-01-01T00:00:00", some ""⟩

/-- The configuration of a default invocation run from the root directory:
default output name, default exclude patterns, no include patterns. -/
def defaultCfg : Config :=
  ⟨"/proj", "gemini_context.txt", "/proj", defaultExcludeAsts, none⟩

/-- A configuration with an include pattern that matches no file of the
fixtures (the literal character z). -/
def cfgInc : Config := ⟨"/r", "out.txt", "/r", [], some [[RItem.lit 'z']]⟩

/-- Second text file, path-sorted after fPlain. -/
def fSecond : FileMeta :=
  ⟨"/r/b.txt", some "b.txt", ".txt", "b.txt", some "text/plain",
   false, false, true, some 3, "2025-01-01T00:00:00", some "bbb"⟩

/-! ### Helper lemmas -/

/-- If the pattern occurs nowhere in the input, pyReplace is the
identity. -/
theorem pyReplace_noOccur (old new : List Char) :
    ∀ l : List Char, hasOccur old l = false → pyReplace old new l = l := by
  intro l
  induction l with
  | nil => intro _; rfl
  | cons c rest ih =>
    intro h
    rw [hasOccur, Bool.or_eq_false_iff] at h
    rw [pyReplace, pyReplaceAux, if_neg (by simp [h.1])]
    exact congrArg (List.cons c) (ih h.2)

/-- After a replacement, the worker silently copies the remaining
characters of the consumed occurrence. -/
theorem pyReplaceAux_skip (old new : List Char) :
    ∀ (pre l : List Char),
      pyReplaceAux old new (pre ++ l) pre.length = pyReplaceAux old new l 0 := by
  intro pre
  induction pre with
  | nil => intro l; rfl
  | cons p ps ih =>
    intro l
    rw [List.cons_append, List.length_cons, pyReplaceAux]
    exact ih l

/-- pyReplace consumes a leading occurrence of the (nonempty) pattern. -/
theorem pyReplace_strip (old new l : List Char) (h : old ≠ []) :
    pyReplace old new (old ++ l) = new ++ pyReplace old new l := by
  obtain ⟨o, os, rfl⟩ : ∃ o os, old = o :: os := by
    cases old with
    | nil => exact absurd rfl h
    | cons o os => exact ⟨o, os, rfl⟩
  have hpre : (o :: os).isPrefixOf (o :: (os ++ l)) = true := by
    rw [← List.cons_append]
    exact List.isPrefixOf_iff_prefix.mpr (List.prefix_append _ _)
  have hlen : (o :: os).length - 1 = os.length := by simp
  rw [pyReplace, List.cons_append, pyReplaceAux, if_pos hpre, hlen,
    pyReplaceAux_skip]
  rfl

/-- Accumulator lemma for the ignore-file line processor. -/
theorem processIgnoreLines_acc :
    ∀ (ls : List (Except Unit String)) (acc : List String),
      processIgnoreLines acc ls = acc ++ processIgnoreLines [] ls := by
  intro ls
  induction ls with
  | nil => intro acc; simp [processIgnoreLines]
  | cons e rest ih =>
    intro acc
    cases e with
    | error u => simp [processIgnoreLines]
    | ok line =>
      by_cases hkeep : (!(pyStrip line == "") && !(pyStartsWith (pyStrip line) "#")) = true
      · rw [processIgnoreLines, if_pos hkeep, processIgnoreLines, if_pos hkeep,
          ih (acc ++ [pyStrip line]), ih ([] ++ [pyStrip line])]
        simp
      · rw [processIgnoreLines, if_neg hkeep, processIgnoreLines, if_neg hkeep, ih acc]

/-- The line processor on a run of successful reads followed by anything:
the non-empty non-comment stripped lines are collected in order, then the
rest of the read sequence is processed. -/
theorem processIgnoreLines_ok :
    ∀ (pre : List String) (rest : List (Except Unit String)),
      processIgnoreLines [] (pre.map Except.ok ++ rest) =
        ((pre.map pyStrip).filter
          (fun l => !(l == "") && !(pyStartsWith l "#"))) ++
          processIgnoreLines [] rest := by
  intro pre
  induction pre with
  | nil => intro rest; simp
  | cons line pre2 ih =>
    intro rest
    by_cases hkeep : (!(pyStrip line == "") && !(pyStartsWith (pyStrip line) "#")) = true
    · rw [List.map_cons, List.cons_append, processIgnoreLines, if_pos hkeep,
        processIgnoreLines_acc, ih rest, List.map_cons]
      simp [List.filter_cons, hkeep]
    · rw [List.map_cons, List.cons_append, processIgnoreLines, if_neg hkeep,
        ih rest, List.map_cons]
      simp [List.filter_cons, hkeep]

/-! ### C1: exclude-flag defaults -/

/-- C1 (amended).  Supplied exclude flags do not replace the built-in
default list: the argparse append action keeps every default pattern and
appends each supplied pattern after them; with no exclude flags the
defaults alone are used. -/
theorem spec_c1 :
    parseArgsExclude [] = defaultExcludeStrings ∧
    (∀ (supplied : List String) (p : String),
      p ∈ defaultExcludeStrings → p ∈ parseArgsExclude supplied) ∧
    (∀ (supplied : List String) (p : String),
      p ∈ supplied → p ∈ parseArgsExclude supplied) := by
  refine ⟨by simp [parseArgsExclude], ?_, ?_⟩
  · intro s p hp
    exact List.mem_append.mpr (Or.inl hp)
  · intro s p hp
    exact List.mem_append.mpr (Or.inr hp)

/-- C1 witness: with one supplied pattern the default regex for the
version-control directory is still in effect, and so is the supplied
pattern. -/
theorem spec_c1_witness :
    "\\.git" ∈ parseArgsExclude ["onlyPattern"] ∧
    "onlyPattern" ∈ parseArgsExclude ["onlyPattern"] :=
  ⟨spec_c1.2.1 ["onlyPattern"] "\\.git" (by simp [defaultExcludeStrings]),
   spec_c1.2.2 ["onlyPattern"] "onlyPattern" (by simp)⟩

/-- C1 counterexample: supplying one exclude flag does not yield exactly
the supplied list; the built-in default list is still applied. -/
theorem spec_c1_cex :
    parseArgsExclude ["onlyPattern"] ≠ ["onlyPattern"] ∧
    "\\.git" ∈ parseArgsExclude ["onlyPattern"] := by
  constructor
  · decide
  · simp [parseArgsExclude, defaultExcludeStrings]

/-! ### C9: ignore-file loader -/

/-- C9 (amended).  An absent ignore file yields no patterns; a fully
readable ignore file yields one pattern per non-empty non-comment stripped
line in file order; a read failure is caught and the patterns accumulated
before the failure are returned (the empty list exactly when the failure
precedes every pattern line, for instance a failure at open). -/
theorem spec_c9 :
    load_context_ignore none = [] ∧
    (∀ lines : List String,
      load_context_ignore (some (lines.map Except.ok)) =
        (lines.map pyStrip).filter
          (fun l => !(l == "") && !(pyStartsWith l "#"))) ∧
    (∀ (pre : List String) (post : List (Except Unit String)),
      load_context_ignore (some (pre.map Except.ok ++ Except.error () :: post)) =
        (pre.map pyStrip).filter
          (fun l => !(l == "") && !(pyStartsWith l "#"))) := by
  refine ⟨rfl, ?_, ?_⟩
  · intro lines
    have h := processIgnoreLines_ok lines []
    rw [List.append_nil] at h
    rw [load_context_ignore, h]
    simp [processIgnoreLines]
  · intro pre post
    rw [load_context_ignore, processIgnoreLines_ok pre (Except.error () :: post)]
    simp [processIgnoreLines]

/-- C9 counterexample: a read failure after one valid pattern line returns
that pattern, not the empty list. -/
theorem spec_c9_cex :
    load_context_ignore (some [Except.ok "node_modules/", Except.error ()]) =
      ["node_modules/"] ∧
    load_context_ignore (some [Except.ok "node_modules/", Except.error ()]) ≠
      [] := by
  constructor
  · rfl
  · decide

/-! ### C6: architecture-decision classification -/

/-- C6: the classifier never returns the architecture_decision tag for a
file with the .md extension, whatever the MIME lookup, name and path: the
documentation-extension check precedes the marker-token check, so the
architecture_decision branch is unreachable.  On the concrete failing
input (a markdown file under an adr directory, MIME lookup unresolved) the
classifier returns documentation. -/
theorem spec_c6 :
    classify none ".md" "0001-choice.md" "docs/adr/0001-choice.md" =
      "documentation" ∧
    hasOccur "adr".data (pyLower "docs/adr/0001-choice.md").data = true ∧
    (∀ (mime : Option String) (name path : String),
      classify mime ".md" name path ≠ "architecture_decision") := by
  refine ⟨rfl, by decide, ?_⟩
  intro mime name path
  cases mime with
  | none =>
    rw [classify]
    rw [if_neg (by decide), if_pos (by decide)]
    decide
  | some m =>
    rw [classify]
    split_ifs <;> decide

/-! ### C7: the FILE line path -/

/-- C7 (amended).  The FILE line strips the current working directory of
the process, not the scanned root: when the root is the working directory
(and the stripped text does not recur in the remainder) the root-relative
path is shown. -/
theorem spec_c7 (cwd rest : String)
    (h : hasOccur (cwd ++ "/").data rest.data = false) :
    relPathDisplay cwd (cwd ++ "/" ++ rest) = rest := by
  have hne : (cwd ++ "/").data ≠ [] := by
    rw [String.data_append]
    intro hcontra
    have h2 := List.append_eq_nil.mp hcontra
    have h3 : "/".data = ['/'] := rfl
    rw [h3] at h2
    exact List.noConfusion h2.2
  have hdata : (cwd ++ "/" ++ rest).data = (cwd ++ "/").data ++ rest.data :=
    String.data_append _ _
  rw [relPathDisplay, hdata, pyReplace_strip _ _ _ hne,
    List.nil_append, pyReplace_noOccur _ _ _ h]

/-- C7 witness: with the root equal to the working directory the FILE line
shows the root-relative path. -/
theorem spec_c7_witness :
    hasOccur ("/data/proj" ++ "/").data "a.py".data = false ∧
    relPathDisplay "/data/proj" ("/data/proj" ++ "/" ++ "a.py") = "a.py" :=
  ⟨by decide, spec_c7 "/data/proj" "a.py" (by decide)⟩

/-- C7 counterexample: with the working directory elsewhere, the FILE line
of a file under the scanned root /data/proj shows the full absolute path,
not the root-relative path a.py that the claim requires. -/
theorem spec_c7_cex :
    relPathDisplay "/home/u" "/data/proj/a.py" = "/data/proj/a.py" ∧
    relPathDisplay "/home/u" "/data/proj/a.py" ≠ "a.py" := by
  constructor
  · decide
  · decide

/-! ### C10: unanchored search over the full path -/

/-- A match of an anchor-free regex survives appending a suffix to the
input. -/
theorem matchHere_append :
    ∀ (p : List RItem), noEndAnchor p = true →
      ∀ (s t : List Char), matchHere p s = true → matchHere p (s ++ t) = true := by
  intro p
  induction p with
  | nil => intro _ s t _; rfl
  | cons i ps ih =>
    intro hanch s t h
    rw [noEndAnchor, List.all_cons, Bool.and_eq_true] at hanch
    have htail : noEndAnchor ps = true := hanch.2
    cases i with
    | lit c =>
      cases s with
      | nil => exact absurd h (by rw [matchHere]; exact Bool.false_ne_true)
      | cons d s2 =>
        rw [matchHere, Bool.and_eq_true] at h
        rw [List.cons_append, matchHere, Bool.and_eq_true]
        exact ⟨h.1, ih htail s2 t h.2⟩
    | anyChar =>
      cases s with
      | nil => exact absurd h (by rw [matchHere]; exact Bool.false_ne_true)
      | cons d s2 =>
        rw [matchHere, Bool.and_eq_true] at h
        rw [List.cons_append, matchHere, Bool.and_eq_true]
        exact ⟨h.1, ih htail s2 t h.2⟩
    | endAnchor => exact absurd hanch.1 (by decide)

/-- An anchor-free regex found by unanchored search in a string is still
found after appending a suffix. -/
theorem reSearch_append (p : List RItem) (hanch : noEndAnchor p = true)
    (s t : List Char) (h : reSearch p s = true) : reSearch p (s ++ t) = true := by
  rw [reSearch, List.any_eq_true] at h
  obtain ⟨i, hi, hm⟩ := h
  rw [List.mem_range] at hi
  rw [reSearch, List.any_eq_true]
  refine ⟨i, ?_, ?_⟩
  · rw [List.mem_range, List.length_append]
    omega
  · have hdrop : List.drop i (s ++ t) = List.drop i s ++ t := by
      rw [List.drop_append_eq_append_drop]
      have h0 : i - s.length = 0 := by omega
      rw [h0, List.drop_zero]
    rw [hdrop]
    exact matchHere_append p hanch _ t hm

/-- C10 (amended).  Exclude regexes are applied by unanchored search to the
full absolute path string: for an anchor-free exclude pattern, a match
anywhere inside the absolute path of the root directory makes every file
under the root excluded (the first check of should_include_file fires), no
matter what the root-relative remainder of the path is. -/
theorem spec_c10 (p : Pattern) (root rel : List Char) (cfg : Config)
    (ig : List String) (f : FileMeta)
    (hanch : noEndAnchor p = true)
    (hroot : reSearch p root = true)
    (hmem : p ∈ cfg.excludePatterns)
    (hpath : f.path.data = root ++ '/' :: rel) :
    reSearch p f.path.data = true ∧
    should_include_file f cfg.excludePatterns ig = some false := by
  have hsearch : reSearch p f.path.data = true := by
    rw [hpath]
    exact reSearch_append p hanch root ('/' :: rel) hroot
  refine ⟨hsearch, ?_⟩
  rw [should_include_file,
    if_pos (List.any_eq_true.mpr ⟨p, hmem, hsearch⟩)]

/-- A text file under the root directory /a/venv whose own path matches
none of the configured patterns in an anchored sense. -/
def fVenv : FileMeta :=
  ⟨"/a/venv/x.py", some "x.py", ".py", "x.py", some "text/x-python",
   false, false, true, some 5, "2025-01-01T00:00:00", some "pass"⟩

/-- C10 witness: the anchor-free pattern venv matches inside the absolute
root path /a/venv, so the file /a/venv/x.py is excluded by the regex
check. -/
theorem spec_c10_witness :
    reSearch (parseRegex "venv".data) "/a/venv/x.py".data = true ∧
    should_include_file fVenv [parseRegex "venv".data] [] = some false :=
  spec_c10 (parseRegex "venv".data) "/a/venv".data "x.py".data
    ⟨"/a", "gemini_context.txt", "/a", [parseRegex "venv".data], none⟩
    [] fVenv (by decide) (by decide) (by decide) (by decide)

/-- C10 counterexample: the end-anchored pattern matching venv at the end
of the string matches inside the absolute root path /a/venv, yet does not
match the path of the file /a/venv/x.py under that root, and the file is
not excluded — refuting the claim that any pattern matching somewhere
inside the root directory path matches every file under the root. -/
theorem spec_c10_cex :
    reSearch (parseRegex "venv$".data) "/a/venv".data = true ∧
    reSearch (parseRegex "venv$".data) "/a/venv/x.py".data = false ∧
    should_include_file fVenv [parseRegex "venv$".data] [] = some true := by
  refine ⟨by decide, by decide, by decide⟩

/-! ### Counter lemmas for the aggregation loop -/

/-- Every completed loop iteration bumps exactly one of the three
counters. -/
theorem processFile_sum (cfg : Config) (ig : List String) (st st2 : RunState)
    (f : FileMeta) (h : processFile cfg ig st f = some st2) :
    st2.processed + st2.ignored + st2.skipped =
      st.processed + st.ignored + st.skipped + 1 := by
  unfold processFile at h
  split at h
  · injection h with h2
    subst h2
    dsimp only
    omega
  · split at h
    · exact Option.noConfusion h
    · split at h
      · injection h with h2
        subst h2
        dsimp only
        omega
      · split at h
        · injection h with h2
          subst h2
          dsimp only
          omega
        · injection h with h2
          subst h2
          dsimp only
          omega
    · split at h
      · injection h with h2
        subst h2
        dsimp only
        omega
      · injection h with h2
        subst h2
        dsimp only
        omega

/-- Counter bookkeeping over a completed run of the loop. -/
theorem runFiles_count (cfg : Config) (ig : List String) :
    ∀ (fs : List FileMeta) (st st2 : RunState),
      runFiles cfg ig fs st = (st2, true) →
      st2.processed + st2.ignored + st2.skipped =
        st.processed + st.ignored + st.skipped + fs.length := by
  intro fs
  induction fs with
  | nil =>
    intro st st2 h
    rw [runFiles] at h
    injection h with h1 _
    subst h1
    simp
  | cons f rest ih =>
    intro st st2 h
    rw [runFiles] at h
    cases hp : processFile cfg ig st f with
    | none =>
      rw [hp] at h
      injection h with _ h2
      exact Bool.noConfusion h2
    | some stm =>
      rw [hp] at h
      have h1 := ih stm st2 h
      have h2 := processFile_sum cfg ig st stm f hp
      rw [List.length_cons]
      omega

/-- The inclusion decision raises only when the stat call of the size
check raises. -/
theorem should_include_isSome (f : FileMeta) (ex : List Pattern)
    (ig : List String) (h : f.stat.isSome = true) :
    (should_include_file f ex ig).isSome = true := by
  rw [should_include_file]
  split_ifs
  · rfl
  · rfl
  · rfl
  · cases hs : f.stat with
    | none =>
      rw [hs] at h
      exact Bool.noConfusion h
    | some sz =>
      by_cases hgt : sz > 1000000
      · simp [hgt]
      · simp [hgt]

/-- Every candidate is a discovered file. -/
theorem candidates_subset (cfg : Config) (files : List FileMeta) :
    ∀ g ∈ candidates cfg files, g ∈ files := by
  intro g hg
  unfold candidates at hg
  split at hg
  · exact hg
  · split at hg
    · exact hg
    · exact List.mem_of_mem_filter hg

/-- Sorting does not change membership. -/
theorem mem_sortByPath (l : List FileMeta) (g : FileMeta) :
    g ∈ sortByPath l ↔ g ∈ l :=
  (List.perm_insertionSort pathLe l).mem_iff

/-- Sorting does not change the length. -/
theorem length_sortByPath (l : List FileMeta) :
    (sortByPath l).length = l.length :=
  (List.perm_insertionSort pathLe l).length_eq

/-- A loop iteration aborts only when the stat call inside the size check
raises. -/
theorem processFile_isSome (cfg : Config) (ig : List String) (st : RunState)
    (f : FileMeta) (h : f.stat.isSome = true) :
    (processFile cfg ig st f).isSome = true := by
  rw [processFile]
  split
  · rfl
  · cases hsi : should_include_file f cfg.excludePatterns ig with
    | none =>
      have hs := should_include_isSome f cfg.excludePatterns ig h
      rw [hsi] at hs
      exact Bool.noConfusion hs
    | some b =>
      cases b with
      | true =>
        dsimp only
        cases f.stat with
        | none => rfl
        | some sz =>
          cases f.content with
          | none => rfl
          | some c => rfl
      | false =>
        dsimp only
        split
        · rfl
        · rfl

/-- The loop runs to completion whenever every listed file has a
successful stat. -/
theorem runFiles_done (cfg : Config) (ig : List String) :
    ∀ (fs : List FileMeta) (st : RunState),
      (∀ g ∈ fs, g.stat.isSome = true) → (runFiles cfg ig fs st).2 = true := by
  intro fs
  induction fs with
  | nil => intro st _; rfl
  | cons f rest ih =>
    intro st hall
    rw [runFiles]
    cases hp : processFile cfg ig st f with
    | none =>
      have h2 := processFile_isSome cfg ig st f (hall f (List.mem_cons_self f rest))
      rw [hp] at h2
      exact Bool.noConfusion h2
    | some st2 =>
      exact ih st2 (fun g hg => hall g (List.mem_cons_of_mem f hg))

/-! ### C2: one disposition per candidate file -/

/-- C2 (amended).  In a completed run, every candidate file — a discovered
file that survives the include pre-filter — receives exactly one
disposition: the three counters sum to the number of candidates.  (When
include patterns are supplied, discovered files matching none of them are
dropped before counting and receive no disposition at all.) -/
theorem spec_c2 (cfg : Config) (ig : List String) (files : List FileMeta)
    (hdone : (runResult cfg ig files).2 = true) :
    (runResult cfg ig files).1.processed + (runResult cfg ig files).1.ignored +
      (runResult cfg ig files).1.skipped = (candidates cfg files).length := by
  have heq : runFiles cfg ig (sortByPath (candidates cfg files)) initState =
      ((runResult cfg ig files).1, true) := by
    rw [← hdone]
    rfl
  have h := runFiles_count cfg ig (sortByPath (candidates cfg files))
    initState (runResult cfg ig files).1 heq
  rw [length_sortByPath] at h
  simpa [initState] using h

/-- C2 witness: a completed run over one discovered file with no include
patterns accounts for it in exactly one counter. -/
theorem spec_c2_witness :
    (runResult cfg0 [] [fPlain]).1.processed +
      (runResult cfg0 [] [fPlain]).1.ignored +
      (runResult cfg0 [] [fPlain]).1.skipped =
      (candidates cfg0 [fPlain]).length :=
  spec_c2 cfg0 [] [fPlain] rfl

/-- C2 counterexample: with an include pattern matching nothing, the run
completes with every counter zero although one regular file was
discovered — that file is left out of all counters, refuting the claim. -/
theorem spec_c2_cex :
    (runResult cfgInc [] [fPlain]).2 = true ∧
    (runResult cfgInc [] [fPlain]).1.processed = 0 ∧
    (runResult cfgInc [] [fPlain]).1.ignored = 0 ∧
    (runResult cfgInc [] [fPlain]).1.skipped = 0 ∧
    [fPlain].length = 1 :=
  ⟨rfl, rfl, rfl, rfl, rfl⟩

/-! ### C3: counter attribution of excluded files -/

/-- C3 (amended).  For a file excluded by the inclusion filter (and not
caught by the output-file guard), the counter attribution does not follow
which check fired: the file is counted as ignored exactly when the
ignore-pattern matcher matches it — even when an exclude regex was the
check that excluded it — and as skipped otherwise. -/
theorem spec_c3 (cfg : Config) (ig : List String) (st : RunState)
    (f : FileMeta)
    (hout : (f.path == cfg.outputFile) = false)
    (hexc : should_include_file f cfg.excludePatterns ig = some false) :
    processFile cfg ig st f =
      some (if is_ignored_by_patterns f ig then
              { st with ignored := st.ignored + 1 }
            else
              { st with skipped := st.skipped + 1 }) := by
  rw [processFile, if_neg (by simp [hout]), hexc, apply_ite some]

/-- C3 witness: a file matching both the exclude regex and a directory
ignore pattern is attributed by the ignore matcher. -/
theorem spec_c3_witness :
    processFile cfgB ["node_modules/"] initState fBoth =
      some (if is_ignored_by_patterns fBoth ["node_modules/"] then
              { initState with ignored := initState.ignored + 1 }
            else
              { initState with skipped := initState.skipped + 1 }) :=
  spec_c3 cfgB ["node_modules/"] initState fBoth rfl rfl

/-- C3 counterexample: a file whose path matches an exclude regex (check 1)
and also an ignore pattern is counted under the ignored counter, not under
the skipped counter as the claim requires. -/
theorem spec_c3_cex :
    (cfgB.excludePatterns.any (fun p => reSearch p fBoth.path.data)) = true ∧
    is_ignored_by_patterns fBoth ["node_modules/"] = true ∧
    (runResult cfgB ["node_modules/"] [fBoth]).1.ignored = 1 ∧
    (runResult cfgB ["node_modules/"] [fBoth]).1.skipped = 0 :=
  ⟨rfl, rfl, rfl, rfl⟩

/-! ### C4: the self-reference guard -/

/-- C4: under a default invocation the self-reference guard never fires —
the guard compares the absolute discovered path with the relative
configured output path — so the destination output file is itself
aggregated (processed, its content emitted) instead of being counted as
skipped, and a run over an otherwise empty directory ends with the
processed counter at one, not with all counters zero. -/
theorem spec_c4 :
    (selfFile.path == defaultCfg.outputFile) = false ∧
    (runResult defaultCfg [] [selfFile]).1.processed = 1 ∧
    (runResult defaultCfg [] [selfFile]).1.ignored = 0 ∧
    (runResult defaultCfg [] [selfFile]).1.skipped = 0 ∧
    (runResult defaultCfg [] [selfFile]).2 = true :=
  ⟨rfl, rfl, rfl, rfl, rfl⟩

/-! ### C5: exception handling in the per-file flow -/

/-- C5 (amended).  Exceptions inside the per-file try block are caught:
a file whose content read raises is counted as skipped (its already
written metadata block stays in the output) and the run continues; every
run in which no discovered file raises on stat reaches the summary-write
stage.  (An exception raised by the stat call inside the size check of
should_include_file, by contrast, is not caught.) -/
theorem spec_c5 (cfg : Config) (ig : List String) :
    (∀ files : List FileMeta,
      (∀ g ∈ files, g.stat.isSome = true) →
      (runResult cfg ig files).2 = true) ∧
    (∀ (f : FileMeta) (st : RunState) (sz : Nat),
      (f.path == cfg.outputFile) = false →
      should_include_file f cfg.excludePatterns ig = some true →
      f.stat = some sz →
      f.content = none →
      processFile cfg ig st f =
        some { st with out := st.out ++ fileInfoBlock cfg f sz,
                       skipped := st.skipped + 1 }) := by
  constructor
  · intro files hall
    rw [runResult]
    apply runFiles_done cfg ig
    intro g hg
    exact hall g (candidates_subset cfg files g ((mem_sortByPath _ g).mp hg))
  · intro f st sz hout hinc hstat hcontent
    rw [processFile, if_neg (by simp [hout]), hinc, hstat, hcontent]

/-- C5 witness: a clean run reaches the summary stage, and a file whose
content read raises is counted as skipped while the run goes on. -/
theorem spec_c5_witness :
    (runResult cfg0 [] [fPlain]).2 = true ∧
    processFile cfg0 [] initState fReadFail =
      some { initState with
               out := initState.out ++ fileInfoBlock cfg0 fReadFail 5,
               skipped := initState.skipped + 1 } :=
  ⟨(spec_c5 cfg0 []).1 [fPlain]
      (fun g hg => by
        rw [List.mem_singleton] at hg
        rw [hg]
        rfl),
   (spec_c5 cfg0 []).2 fReadFail initState 5 rfl rfl rfl rfl⟩

/-- C5 counterexample: a file whose stat raises during the size check of
should_include_file aborts the run before any summary is written — the
output holds the header alone — refuting the claim that errors raised
while checking the size are caught and every run reaches the
summary-write stage. -/
theorem spec_c5_cex :
    (runResult cfg0 [] [fStatFail]).2 = false ∧
    (programOutput cfg0 "T" [] [fStatFail]).1 = headerString cfg0 "T" := by
  constructor
  · rfl
  · decide

/-! ### C8: deterministic, sorted output -/

/-- Two sorted lists with the same elements and pairwise-distinct path
keys are equal. -/
theorem sorted_nodupKeys_eq :
    ∀ (l₁ l₂ : List FileMeta), l₁.Perm l₂ → l₁.Sorted pathLe →
      l₂.Sorted pathLe → (l₁.map FileMeta.path).Nodup → l₁ = l₂ := by
  intro l₁
  induction l₁ with
  | nil =>
    intro l₂ hp _ _ _
    exact (List.Perm.eq_nil hp.symm).symm
  | cons a t ih =>
    intro l₂ hp hs1 hs2 hnd
    cases l₂ with
    | nil => exact absurd hp.eq_nil (by simp)
    | cons b t2 =>
      have hab : a = b := by
        have hbmem : b ∈ a :: t := hp.mem_iff.mpr (List.mem_cons_self b t2)
        have hamem : a ∈ b :: t2 := hp.mem_iff.mp (List.mem_cons_self a t)
        rcases List.mem_cons.mp hbmem with hba | hbt
        · exact hba.symm
        rcases List.mem_cons.mp hamem with hab2 | hat2
        · exact hab2
        have h1 : pathLe a b := (List.sorted_cons.mp hs1).1 b hbt
        have h2 : pathLe b a := (List.sorted_cons.mp hs2).1 a hat2
        exact List.inj_on_of_nodup_map hnd (List.mem_cons_self a t)
          (List.mem_cons_of_mem a hbt) (le_antisymm h1 h2)
      subst hab
      have htails := ih t2 hp.cons_inv (List.sorted_cons.mp hs1).2
        (List.sorted_cons.mp hs2).2 (by
          rw [List.map_cons] at hnd
          exact hnd.of_cons)
      rw [htails]

/-- Sorting by path is invariant under permutation of the input when the
path keys are pairwise distinct. -/
theorem sortByPath_eq_of_perm (l₁ l₂ : List FileMeta) (hp : l₁.Perm l₂)
    (hnd : (l₁.map FileMeta.path).Nodup) : sortByPath l₁ = sortByPath l₂ := by
  apply sorted_nodupKeys_eq
  · exact (List.perm_insertionSort pathLe l₁).trans
      (hp.trans (List.perm_insertionSort pathLe l₂).symm)
  · exact List.sorted_insertionSort pathLe l₁
  · exact List.sorted_insertionSort pathLe l₂
  · exact (((List.perm_insertionSort pathLe l₁).map FileMeta.path).nodup_iff).mpr hnd

/-- The include pre-filter respects permutation of the discovered list. -/
theorem candidates_perm (cfg : Config) {l₁ l₂ : List FileMeta}
    (hp : l₁.Perm l₂) : (candidates cfg l₁).Perm (candidates cfg l₂) := by
  unfold candidates
  split
  · exact hp
  · split
    · exact hp
    · exact hp.filter _

/-- The include pre-filter preserves distinctness of the path keys. -/
theorem candidates_nodup (cfg : Config) (l : List FileMeta)
    (hnd : (l.map FileMeta.path).Nodup) :
    ((candidates cfg l).map FileMeta.path).Nodup := by
  unfold candidates
  split
  · exact hnd
  · split
    · exact hnd
    · exact List.Nodup.sublist (List.Sublist.map _ (List.filter_sublist l)) hnd

/-- C8.  Two runs with the same configuration over the same discovered
files — in any enumeration orders — produce byte-identical output except
for the generated-on stamp of the header, complete or abort identically,
and emit the candidate blocks in strictly increasing order of the full
path strings. -/
theorem spec_c8 (cfg : Config) (ig : List String) (t1 t2 : String)
    (l₁ l₂ : List FileMeta) (hperm : l₁.Perm l₂)
    (hnd : (l₁.map FileMeta.path).Nodup) :
    (∃ body done,
      programOutput cfg t1 ig l₁ = (headerString cfg t1 ++ body, done) ∧
      programOutput cfg t2 ig l₂ = (headerString cfg t2 ++ body, done)) ∧
    ((sortByPath (candidates cfg l₁)).map FileMeta.path).Pairwise
      (fun a b => a < b) := by
  have hkey : sortByPath (candidates cfg l₁) = sortByPath (candidates cfg l₂) :=
    sortByPath_eq_of_perm _ _ (candidates_perm cfg hperm)
      (candidates_nodup cfg l₁ hnd)
  have hrr : runResult cfg ig l₂ = runResult cfg ig l₁ := by
    rw [runResult, runResult, hkey]
  constructor
  · refine ⟨(runResult cfg ig l₁).1.out ++
        (if (runResult cfg ig l₁).2 then summaryString (runResult cfg ig l₁).1
         else ""),
      (runResult cfg ig l₁).2, rfl, ?_⟩
    rw [programOutput, hrr]
  · have hnd2 : ((sortByPath (candidates cfg l₁)).map FileMeta.path).Nodup :=
      (((List.perm_insertionSort pathLe (candidates cfg l₁)).map
        FileMeta.path).nodup_iff).mpr (candidates_nodup cfg l₁ hnd)
    have hle : ((sortByPath (candidates cfg l₁)).map FileMeta.path).Pairwise
        (fun a b => a ≤ b) :=
      List.pairwise_map.mpr (List.sorted_insertionSort pathLe _)
    have hne : ((sortByPath (candidates cfg l₁)).map FileMeta.path).Pairwise
        (fun a b => a ≠ b) := hnd2
    exact (hle.and hne).imp (fun h => lt_of_le_of_ne h.1 h.2)

/-- C8 witness: the two enumeration orders of the same two files give the
same body and the sorted paths are strictly increasing. -/
theorem spec_c8_witness :
    (∃ body done,
      programOutput cfg0 "t1" [] [fPlain, fSecond] =
        (headerString cfg0 "t1" ++ body, done) ∧
      programOutput cfg0 "t2" [] [fSecond, fPlain] =
        (headerString cfg0 "t2" ++ body, done)) ∧
    ((sortByPath (candidates cfg0 [fPlain, fSecond])).map FileMeta.path).Pairwise
      (fun a b => a < b) :=
  spec_c8 cfg0 [] "t1" "t2" [fPlain, fSecond] [fSecond, fPlain]
    (List.Perm.swap fSecond fPlain []) (by decide)

end ContextFile
